import Mathlib

/-!
# Verification of the capybot decision-and-execution core

A shallow embedding, in Lean 4, of the decision-and-execution core of the
capybot trading agent:

* the RAMM payment selector (`RAMMPool.prepareCoinForPaymentCommon` and
  `RAMMPool.createSwapTransaction` in `src/dexs/ramm-sui/ramm-sui.ts`),
* the `Arbitrage` strategy (`Arbitrage.evaluate` in
  `src/strategies/arbitrage.ts`, the variant taking a per-asset map of
  default amounts),
* the execution loop's delay controller and strategy registration
  (`Capybot.loop` and `Capybot.addStrategy` in `src/capybot.ts`).

Numbers are modelled exactly: on-ledger coin balances and payment amounts
are natural numbers, and JavaScript floating-point values are modelled by
`JSNum`, rationals extended with signed infinities and NaN, with the
JavaScript semantics of the arithmetic operations and comparisons the
strategy code uses (`1/0 = +Infinity`, `NaN` propagation, comparisons with
`NaN` being false).  Rounding of floating-point results is not modelled;
none of the properties proved below depends on it.
-/

/-! ## Payment selector (`RAMMPool.prepareCoinForPaymentCommon`) -/

/-- One owned fragment of a wallet's holdings of an asset, as reported by
the ledger.  Mirrors the fields of `CoinStruct` that the selector reads:
`coinObjectId` and (the `parseInt` of) `balance`. -/
structure CoinStruct where
  coinObjectId : String
  balance : Nat
deriving Repr, DecidableEq

/-- Sum of the balances of a list of coins. -/
def sumBalances (coins : List CoinStruct) : Nat :=
  (coins.map (fun c => c.balance)).sum

/-- The long form of the SUI asset address (`RAMMPool.SUI_ADDRESS_LONG`). -/
def SUI_ADDRESS_LONG : String :=
  "0x0000000000000000000000000000000000000000000000000000000000000002::sui::SUI"

/-- The short form of the SUI asset address (`RAMMPool.SUI_ADDRESS_SHORT`). -/
def SUI_ADDRESS_SHORT : String :=
  "0x2::SUI::sui"

/-- The plan of merge/split operations the selector appends to the
transaction block, abstracted from the PTB calls it makes:

* `splitFromGas q`: the SUI fast path, splitting `q` from the gas object;
* `splitFromSingle c q`: a single owned coin `c` covers the target, `q` is
  split from it;
* `mergeAndSplit base others q`: `others` are merged into `base`, then `q`
  is split from `base`. -/
inductive PaymentPlan where
  | splitFromGas (amount : Nat)
  | splitFromSingle (coin : CoinStruct) (amount : Nat)
  | mergeAndSplit (base : CoinStruct) (others : List CoinStruct) (amount : Nat)
deriving Repr, DecidableEq

/-- The ways `prepareCoinForPaymentCommon` can throw:

* `insufficientBalance needed found` models
  `throw new Error With Insufficient balance ... Needed ... found ...`;
* `runtimeTypeError` models the TypeError raised when the necessary-coin
  list is empty and the code dereferences `necessaryCoins[0]`. -/
inductive SelectorError where
  | insufficientBalance (needed found : Nat)
  | runtimeTypeError
deriving Repr, DecidableEq

/-- The balance of the coin produced by a plan (`splitCoins` always yields
a coin whose balance is exactly the requested amount). -/
def planAmount : PaymentPlan → Nat
  | .splitFromGas a => a
  | .splitFromSingle _ a => a
  | .mergeAndSplit _ _ a => a

/-- Whether the ledger-side split encoded by a plan can be funded: the coin
(or merged coin) split from holds at least the requested amount.  The gas
object is treated as always sufficient, matching the fast path's
assumption. -/
def planFunded : PaymentPlan → Bool
  | .splitFromGas _ => true
  | .splitFromSingle c a => a ≤ c.balance
  | .mergeAndSplit b os a => a ≤ b.balance + sumBalances os

/-- Stable insertion of a coin into a list already sorted ascending by
balance: the coin goes before the first strictly larger balance, after
equal ones it follows in the original order. -/
def insertAsc (c : CoinStruct) : List CoinStruct → List CoinStruct
  | [] => [c]
  | d :: ds => if d.balance < c.balance then d :: insertAsc c ds else c :: d :: ds

/-- The selector's coin sort: `baseCoins.sort((a, b) => balance(a) - balance(b))`,
a stable ascending sort by balance, modelled as insertion sort. -/
def sortCoins : List CoinStruct → List CoinStruct
  | [] => []
  | c :: cs => insertAsc c (sortCoins cs)

/-- The selector's accumulation loop: starting from the running sum `sum`,
push coins onto `necessaryCoins` until the running sum first reaches the
target, and stop there.  Returns the final running sum and the coins
pushed. -/
def collectLoop (quantity : Nat) (sum : Nat) : List CoinStruct → Nat × List CoinStruct
  | [] => (sum, [])
  | c :: cs =>
    let sum2 := sum + c.balance
    if quantity ≤ sum2 then (sum2, [c])
    else
      let r := collectLoop quantity sum2 cs
      (r.1, c :: r.2)

/-- `RAMMPool.prepareCoinForPaymentCommon`, with the ledger query for the
wallet's coins abstracted into the `ownedCoins` argument.

* SUI payments take the gas fast path;
* otherwise the first owned coin whose balance covers the target is split;
* otherwise the coins are sorted ascending by balance and accumulated
  smallest-first until the running sum reaches the target; if even the
  total is insufficient the function throws, and otherwise all selected
  coins but the first are merged into the first, from which the target is
  then split. -/
def prepareCoinForPaymentCommon (asset : String) (ownedCoins : List CoinStruct)
    (quantityWithMultiplier : Nat) : Except SelectorError PaymentPlan :=
  if asset = SUI_ADDRESS_LONG ∨ asset = SUI_ADDRESS_SHORT then
    .ok (.splitFromGas quantityWithMultiplier)
  else
    match ownedCoins.find? (fun c => quantityWithMultiplier ≤ c.balance) with
    | some basedCoinUsedToPay => .ok (.splitFromSingle basedCoinUsedToPay quantityWithMultiplier)
    | none =>
      let sortedBaseCoins := sortCoins ownedCoins
      let r := collectLoop quantityWithMultiplier 0 sortedBaseCoins
      if r.1 < quantityWithMultiplier then
        .error (.insufficientBalance quantityWithMultiplier r.1)
      else
        match r.2 with
        | [] => .error .runtimeTypeError
        | baseCoin :: otherCoins => .ok (.mergeAndSplit baseCoin otherCoins quantityWithMultiplier)

deriving instance DecidableEq for Except

/-! ## Swap transaction construction (`RAMMPool.createSwapTransaction`) -/

/-- The transaction-block commands appended by the RAMM swap path,
abstracting the PTB calls `splitCoins(gas, ...)`, `splitCoins(coin, ...)`,
`mergeCoins` and the SDK call `tradeAmountIn`. -/
inductive TxCommand where
  | splitGas (amount : Nat)
  | splitCoin (coinId : String) (amount : Nat)
  | mergeCoins (baseId : String) (others : List String)
  | tradeAmountIn (assetIn assetOut : String) (minAmountOut : Nat)
deriving Repr, DecidableEq

/-- The commands `prepareCoinForPaymentCommon` appends to the transaction
block for a given payment plan, in the order the source appends them
(merge before split). -/
def planCommands : PaymentPlan → List TxCommand
  | .splitFromGas a => [.splitGas a]
  | .splitFromSingle c a => [.splitCoin c.coinObjectId a]
  | .mergeAndSplit b os a =>
    [.mergeCoins b.coinObjectId (os.map (fun c => c.coinObjectId)), .splitCoin b.coinObjectId a]

/-- The coin pair of a `RAMMPool`, the only pool state
`createSwapTransaction` reads (through `this.coinA.type` and
`this.coinB.type`). -/
structure RAMMPoolCoins where
  coinAType : String
  coinBType : String
deriving Repr, DecidableEq

/-- The `RAMMSuiParams` fields `createSwapTransaction` consumes. -/
structure RAMMSuiParams where
  a2b : Bool
  amountIn : Nat
deriving Repr, DecidableEq

/-- The one error `createSwapTransaction` lets escape: the `amountIn === 0`
check, which sits before the try/catch. -/
inductive SwapTxError where
  | zeroAmount
deriving Repr, DecidableEq

/-- `RAMMPool.createSwapTransaction`.  A transaction block is the list of
commands appended so far.  The `try/catch` around payment selection and
`tradeAmountIn` is modelled faithfully: any selector error is caught,
logged, and swallowed, and the transaction block received is returned
unchanged as the non-error result. -/
def createSwapTransaction (pool : RAMMPoolCoins) (ownedCoins : List CoinStruct)
    (transactionBlock : List TxCommand) (params : RAMMSuiParams) :
    Except SwapTxError (List TxCommand) :=
  if params.amountIn = 0 then
    .error .zeroAmount
  else
    let assetIn := if params.a2b then pool.coinAType else pool.coinBType
    let assetOut := if params.a2b then pool.coinBType else pool.coinAType
    match prepareCoinForPaymentCommon assetIn ownedCoins params.amountIn with
    | .error _ => .ok transactionBlock
    | .ok plan => .ok (transactionBlock ++ planCommands plan ++ [.tradeAmountIn assetIn assetOut 1])

/-- The guard in `Capybot.executeTransactionBlock`: a transaction block is
signed and submitted only when it contains at least one command. -/
def executeSubmits (transactionBlock : List TxCommand) : Bool :=
  transactionBlock.length ≠ 0

/-! ## JavaScript numbers

The arbitrage strategy computes with JavaScript floating-point numbers.
`JSNum` models them as exact rationals extended with the two infinities and
NaN; the operations below implement the IEEE-754 special-value rules the
strategy relies on (`1/0 = +Infinity`, NaN propagation, every comparison
with NaN false).  Rounding of finite results is not modelled. -/

/-- A JavaScript number: a finite rational, `inf true` for positive
infinity, `inf false` for negative infinity, or NaN. -/
inductive JSNum where
  | num : ℚ → JSNum
  | inf : Bool → JSNum
  | nan : JSNum
deriving Repr, DecidableEq

/-- JavaScript multiplication. -/
def jmul : JSNum → JSNum → JSNum
  | .nan, _ => .nan
  | _, .nan => .nan
  | .num a, .num b => .num (a * b)
  | .num a, .inf s => if a = 0 then .nan else .inf ((decide (0 < a)) == s)
  | .inf s, .num b => if b = 0 then .nan else .inf (s == (decide (0 < b)))
  | .inf s, .inf t => .inf (s == t)

/-- JavaScript subtraction (used as `1 - fee`). -/
def jsub : JSNum → JSNum → JSNum
  | .nan, _ => .nan
  | _, .nan => .nan
  | .num a, .num b => .num (a - b)
  | .num _, .inf s => .inf (!s)
  | .inf s, .num _ => .inf s
  | .inf s, .inf t => if s = t then .nan else .inf s

/-- JavaScript division (used as `1 / rate`); division by (positive) zero
yields an infinity of the numerator's sign, `0 / 0` yields NaN. -/
def jdiv : JSNum → JSNum → JSNum
  | .nan, _ => .nan
  | _, .nan => .nan
  | .num a, .num b =>
    if b = 0 then (if a = 0 then .nan else .inf (decide (0 < a)))
    else .num (a / b)
  | .num _, .inf _ => .num 0
  | .inf s, .num b => if b = 0 then .inf s else .inf (s == (decide (0 < b)))
  | .inf _, .inf _ => .nan

/-- JavaScript strict greater-than; false whenever either side is NaN. -/
def jgt : JSNum → JSNum → Bool
  | .nan, _ => false
  | _, .nan => false
  | .num a, .num b => b < a
  | .num _, .inf s => !s
  | .inf s, .num _ => s
  | .inf s, .inf t => s && !t

/-- Coercion JavaScript applies when an `undefined` record entry enters
arithmetic: `undefined` becomes NaN. -/
def undefToNan : Option JSNum → JSNum
  | none => .nan
  | some x => x

/-- Lookup in a JavaScript record modelled as an association list; `none`
is JavaScript's `undefined`. -/
def recLookup (key : String) : List (String × JSNum) → Option JSNum
  | [] => none
  | (k, v) :: rest => if key = k then some v else recLookup key rest

/-! ## Arbitrage strategy (`Arbitrage.evaluate`) -/

/-- The fields of a `Coin` the strategy reads: its canonical type
identifier and its decimal places. -/
structure Coin where
  type : String
  decimals : Nat
deriving Repr, DecidableEq

/-- One hop of the configured pool chain (`PoolWithDirection`). -/
structure PoolWithDirection where
  poolUuid : String
  coinA : Coin
  coinB : Coin
  a2b : Bool
deriving Repr, DecidableEq

/-- A trade intent, as built by the strategy.  `estimatedPrice` is an
`Option` because the reverse branch can read a rate entry that is still
`undefined`. -/
structure TradeOrder where
  poolUuid : String
  assetIn : String
  amountIn : JSNum
  estimatedPrice : Option JSNum
  a2b : Bool
deriving Repr, DecidableEq

/-- Modelled from the spec: the kind tag of an observation
(`DataType` from `src/data_sources/data_point.ts`, a file not in the
sources).  The spec's step 1 only distinguishes price observations from
all others, so one non-price kind suffices. -/
inductive DataType where
  | Price
  | NonPrice
deriving Repr, DecidableEq

/-- Modelled from the spec: an observation (`DataPoint` from
`src/data_sources/data_point.ts`, a file not in the sources), restricted
to the fields `Arbitrage.evaluate` reads: kind tag, source identity,
price and fee. -/
structure DataPoint where
  type : DataType
  source_uri : String
  price : JSNum
  fee : JSNum
deriving Repr, DecidableEq

/-- The whole state of an `Arbitrage` instance: the construction-time
configuration (`lowerLimit`, `poolChain`, `defaultAmounts`) together with
the mutable caches `latestRate` and `latestFee`. -/
structure Arbitrage where
  lowerLimit : JSNum
  poolChain : List PoolWithDirection
  latestRate : List (String × JSNum)
  latestFee : List (String × JSNum)
  defaultAmounts : List (String × JSNum)
deriving Repr, DecidableEq

/-- `Arbitrage.getLatestRate`: the cached rate in the requested direction.
For `a2b` the cached entry itself (possibly `undefined`); otherwise
`1 / rate`, in which an `undefined` entry first coerces to NaN. -/
def getLatestRate (s : Arbitrage) (pool : String) (a2b : Bool) : Option JSNum :=
  if a2b then recLookup pool s.latestRate
  else some (jdiv (.num 1) (undefToNan (recLookup pool s.latestRate)))

/-- The cache update at the top of `evaluate`: record the observed price
and fee under the observation's source identity. -/
def updateCaches (s : Arbitrage) (data : DataPoint) : Arbitrage :=
  { s with
    latestRate := (data.source_uri, data.price) :: s.latestRate
    latestFee := (data.source_uri, data.fee) :: s.latestFee }

/-- The product loop of `evaluate`: walk the whole chain accumulating
`arbitrage *= (1 - fee) * rate` and
`arbitrageReverse *= (1 - fee) * (1 / rate)`, aborting with `none` as soon
as a hop's rate compares equal to `undefined`. -/
def chainProducts (s : Arbitrage) : List PoolWithDirection → JSNum → JSNum →
    Option (JSNum × JSNum)
  | [], arbitrage, arbitrageReverse => some (arbitrage, arbitrageReverse)
  | pool :: rest, arbitrage, arbitrageReverse =>
    match getLatestRate s pool.poolUuid pool.a2b with
    | none => none
    | some rate =>
      let fee := undefToNan (recLookup pool.poolUuid s.latestFee)
      chainProducts s rest
        (jmul arbitrage (jmul (jsub (.num 1) fee) rate))
        (jmul arbitrageReverse (jmul (jsub (.num 1) fee) (jdiv (.num 1) rate)))

/-- One order of the forward branch: direction and input asset as
declared, `amountIn` the configured default amount of the input asset
scaled by the input asset's decimal places. -/
def forwardOrder (s : Arbitrage) (pool : PoolWithDirection) : TradeOrder :=
  let latestRate := getLatestRate s pool.poolUuid pool.a2b
  let amountIn := undefToNan
    (recLookup (if pool.a2b then pool.coinA.type else pool.coinB.type) s.defaultAmounts)
  let scaledAmountIn := jmul amountIn
    (.num (10 ^ (if pool.a2b then pool.coinA.decimals else pool.coinB.decimals)))
  { poolUuid := pool.poolUuid
    assetIn := if pool.a2b then pool.coinA.type else pool.coinB.type
    amountIn := scaledAmountIn
    estimatedPrice := latestRate
    a2b := pool.a2b }

/-- One order of the reverse branch: the hop's direction inverted, input
asset and scaling taken from the inverted direction's input side. -/
def reverseOrder (s : Arbitrage) (pool : PoolWithDirection) : TradeOrder :=
  let latestRate := getLatestRate s pool.poolUuid (!pool.a2b)
  let amountIn := undefToNan
    (recLookup (if !pool.a2b then pool.coinA.type else pool.coinB.type) s.defaultAmounts)
  let scaledAmountIn := jmul amountIn
    (.num (10 ^ (if !pool.a2b then pool.coinA.decimals else pool.coinB.decimals)))
  { poolUuid := pool.poolUuid
    assetIn := if !pool.a2b then pool.coinA.type else pool.coinB.type
    amountIn := scaledAmountIn
    estimatedPrice := latestRate
    a2b := !pool.a2b }

/-- `Arbitrage.evaluate`.  Returns the emitted orders together with the
strategy state after the call.  The reverse branch iterates over
`this.poolChain.reverse()`, which in JavaScript reverses the array *in
place*; the post-state therefore carries the reversed chain in that
branch. -/
def evaluate (s : Arbitrage) (data : DataPoint) : List TradeOrder × Arbitrage :=
  if data.type ≠ DataType.Price ∨ data.source_uri ∉ s.poolChain.map (fun p => p.poolUuid) then
    ([], s)
  else
    let s1 := updateCaches s data
    match chainProducts s1 s1.poolChain (.num 1) (.num 1) with
    | none => ([], s1)
    | some (arbitrage, arbitrageReverse) =>
      if jgt arbitrage s1.lowerLimit then
        (s1.poolChain.map (forwardOrder s1), s1)
      else if jgt arbitrageReverse s1.lowerLimit then
        (s1.poolChain.reverse.map (reverseOrder s1),
          { s1 with poolChain := s1.poolChain.reverse })
      else
        ([], s1)

/-! ## Execution loop delay controller (`Capybot.loop`) -/

/-- One pass of the delay controller in the strategy loop of
`Capybot.loop`: a failed submission multiplies the delay by 10, and the
delay is then always re-clamped by
`Math.min(Math.max(delay, baseDelay), maxDelay)`. -/
def delayStep (baseDelay maxDelay : ℚ) (delay : ℚ) (failed : Bool) : ℚ :=
  min (max (if failed then delay * 10 else delay) baseDelay) maxDelay

/-- The delay after a sequence of submission outcomes (`true` = the
submission response carried errors), starting from delay `d0`.
`Capybot.loop` starts with `d0 = baseDelay` (it sets
`const baseDelay = delay` from its own initial delay argument), and every
`setTimeout(delay)` sleep observes the value of this fold over the
outcomes seen so far. -/
def delayAfter (baseDelay maxDelay d0 : ℚ) (outcomes : List Bool) : ℚ :=
  outcomes.foldl (delayStep baseDelay maxDelay) d0

/-! ## Strategy registration (`Capybot.addStrategy`) -/

/-- The bot state `addStrategy` touches: the registered data-source
identities and the per-source strategy routing lists, keyed by source
identity. -/
structure Capybot where
  dataSources : List String
  strategies : List (String × List String)
deriving Repr, DecidableEq

/-- `this.strategies[dataSource].push(strategy)`: append the strategy to
the routing list stored under `dataSource` (a no-op on keys that are not
present). -/
def pushStrategy (m : List (String × List String)) (dataSource strategy : String) :
    List (String × List String) :=
  m.map (fun p => if p.1 = dataSource then (p.1, p.2 ++ [strategy]) else p)

/-- Lookup of a routing list by source identity. -/
def stratLookup (key : String) : List (String × List String) → Option (List String)
  | [] => none
  | (k, v) :: rest => if key = k then some v else stratLookup key rest

/-- The loop body of `Capybot.addStrategy` over the strategy's
`subscribes_to()` list: each registered source gets the strategy pushed
onto its routing list; the first unregistered source throws, leaving the
pushes already performed in place.  The boolean records whether the call
threw. -/
def addStrategyLoop (bot : Capybot) (strategy : String) : List String → Capybot × Bool
  | [] => (bot, false)
  | dataSource :: rest =>
    if dataSource ∈ bot.dataSources then
      addStrategyLoop
        { bot with strategies := pushStrategy bot.strategies dataSource strategy }
        strategy rest
    else
      (bot, true)

/-- `Capybot.addStrategy`, applied to the strategy's subscription list. -/
def addStrategy (bot : Capybot) (strategy : String) (subscribesTo : List String) :
    Capybot × Bool :=
  addStrategyLoop bot strategy subscribesTo

/-! ## Concrete fixtures used by witnesses and counterexamples -/

/-- A non-SUI asset identifier. -/
def assetNonSui : String := "0xabc::coin::COIN"

/-- A second non-SUI asset identifier. -/
def assetOther : String := "0xbbb::y::Y"

def coin3 : CoinStruct := { coinObjectId := "coin-3", balance := 3 }

def coin4 : CoinStruct := { coinObjectId := "coin-4", balance := 4 }

def coin10a : CoinStruct := { coinObjectId := "coin-10a", balance := 10 }

def coin10b : CoinStruct := { coinObjectId := "coin-10b", balance := 10 }

def coin30 : CoinStruct := { coinObjectId := "coin-30", balance := 30 }

def coin45 : CoinStruct := { coinObjectId := "coin-45", balance := 45 }

def coin80 : CoinStruct := { coinObjectId := "coin-80", balance := 80 }

/-- An asset with six decimal places. -/
def coinX : Coin := { type := "0xaaa::x::X", decimals := 6 }

/-- An asset with three decimal places. -/
def coinY : Coin := { type := "0xbbb::y::Y", decimals := 3 }

/-- A pool trading X for Y, declared direction A to B. -/
def poolXY : PoolWithDirection :=
  { poolUuid := "pool-xy", coinA := coinX, coinB := coinY, a2b := true }

/-- A pool trading Y for X, declared direction A to B. -/
def poolYX : PoolWithDirection :=
  { poolUuid := "pool-yx", coinA := coinY, coinB := coinX, a2b := true }

/-! ## Helper lemmas about the payment selector -/

theorem sumBalances_cons (c : CoinStruct) (l : List CoinStruct) :
    sumBalances (c :: l) = c.balance + sumBalances l := by
  simp [sumBalances]

theorem sumBalances_insertAsc (c : CoinStruct) (l : List CoinStruct) :
    sumBalances (insertAsc c l) = c.balance + sumBalances l := by
  induction l with
  | nil => simp [insertAsc, sumBalances]
  | cons d ds ih =>
    rw [insertAsc]
    split
    · rw [sumBalances_cons, ih, sumBalances_cons]
      omega
    · rw [sumBalances_cons, sumBalances_cons]

/-- The sort leaves the total balance unchanged. -/
theorem sumBalances_sortCoins (l : List CoinStruct) :
    sumBalances (sortCoins l) = sumBalances l := by
  induction l with
  | nil => rfl
  | cons c cs ih =>
    rw [sortCoins, sumBalances_insertAsc, ih, sumBalances_cons]

theorem balance_le_sumBalances {c : CoinStruct} {l : List CoinStruct} (h : c ∈ l) :
    c.balance ≤ sumBalances l := by
  induction l with
  | nil => cases h
  | cons d ds ih =>
    rw [sumBalances_cons]
    rcases List.mem_cons.mp h with h1 | h2
    · subst h1; omega
    · have := ih h2; omega

/-- When even the whole list cannot reach the target, the accumulation
loop consumes it entirely and reports the total. -/
theorem collectLoop_insufficient (quantity : Nat) :
    ∀ (l : List CoinStruct) (sum : Nat), sum + sumBalances l < quantity →
      collectLoop quantity sum l = (sum + sumBalances l, l) := by
  intro l
  induction l with
  | nil => intro sum h; simp [collectLoop, sumBalances]
  | cons c cs ih =>
    intro sum h
    rw [sumBalances_cons] at h
    simp only [collectLoop]
    rw [if_neg (by omega)]
    rw [ih (sum + c.balance) (by omega)]
    simp only [sumBalances_cons, Prod.ext_iff]
    constructor
    · omega
    · trivial

/-- When the list can reach the target, the accumulation loop takes
exactly the shortest prefix whose running sum first reaches it. -/
theorem collectLoop_minimal (quantity : Nat) :
    ∀ (l : List CoinStruct) (sum : Nat), sum < quantity →
      quantity ≤ sum + sumBalances l →
      ∃ k, 0 < k ∧ k ≤ l.length ∧
        collectLoop quantity sum l = (sum + sumBalances (l.take k), l.take k) ∧
        quantity ≤ sum + sumBalances (l.take k) ∧
        ∀ j < k, sum + sumBalances (l.take j) < quantity := by
  intro l
  induction l with
  | nil =>
    intro sum h1 h2
    simp [sumBalances] at h2
    omega
  | cons c cs ih =>
    intro sum h1 h2
    by_cases hc : quantity ≤ sum + c.balance
    · refine ⟨1, by omega, by simp, ?_, ?_, ?_⟩
      · simp only [collectLoop]
        rw [if_pos hc]
        simp [sumBalances_cons, sumBalances]
      · simpa [sumBalances_cons, sumBalances] using hc
      · intro j hj
        interval_cases j
        simpa [sumBalances]
    · rw [sumBalances_cons] at h2
      obtain ⟨k, hk0, hklen, heq, hge, hmin⟩ :=
        ih (sum + c.balance) (by omega) (by omega)
      refine ⟨k + 1, by omega, by simp; omega, ?_, ?_, ?_⟩
      · simp only [collectLoop]
        rw [if_neg hc, heq]
        simp only [List.take_succ_cons, sumBalances_cons, Prod.ext_iff]
        constructor
        · omega
        · trivial
      · rw [List.take_succ_cons, sumBalances_cons]
        omega
      · intro j hj
        cases j with
        | zero => simpa [sumBalances]
        | succ j2 =>
          rw [List.take_succ_cons, sumBalances_cons]
          have := hmin j2 (by omega)
          omega

/-! ## Helper lemmas about the strategy, the delay controller and
registration -/

theorem updateCaches_poolChain (s : Arbitrage) (data : DataPoint) :
    (updateCaches s data).poolChain = s.poolChain := rfl

theorem updateCaches_defaultAmounts (s : Arbitrage) (data : DataPoint) :
    (updateCaches s data).defaultAmounts = s.defaultAmounts := rfl

theorem updateCaches_lowerLimit (s : Arbitrage) (data : DataPoint) :
    (updateCaches s data).lowerLimit = s.lowerLimit := rfl

/-- One delay-controller step always lands inside the clamp interval. -/
theorem delayStep_bounds (baseDelay maxDelay d : ℚ) (failed : Bool)
    (h : baseDelay ≤ maxDelay) :
    baseDelay ≤ delayStep baseDelay maxDelay d failed ∧
    delayStep baseDelay maxDelay d failed ≤ maxDelay := by
  rw [delayStep]
  exact ⟨le_min (le_max_right _ _) h, min_le_right _ _⟩

/-- Pushing a strategy changes exactly the routing list stored under the
pushed key. -/
theorem stratLookup_pushStrategy (m : List (String × List String))
    (dataSource strategy key : String) :
    stratLookup key (pushStrategy m dataSource strategy) =
      if key = dataSource then (stratLookup key m).map (fun l => l ++ [strategy])
      else stratLookup key m := by
  induction m with
  | nil => simp [pushStrategy, stratLookup]
  | cons p rest ih =>
    obtain ⟨k2, v⟩ := p
    simp only [pushStrategy, List.map_cons]
    by_cases h1 : k2 = dataSource
    · rw [if_pos h1]
      by_cases h2 : key = k2
      · subst h1; subst h2
        simp [stratLookup]
      · rw [stratLookup, if_neg h2, stratLookup, if_neg h2]
        simpa [pushStrategy] using ih
    · rw [if_neg h1]
      by_cases h2 : key = k2
      · subst h2
        simp [stratLookup, h1]
      · rw [stratLookup, if_neg h2, stratLookup, if_neg h2]
        simpa [pushStrategy] using ih

/-- Running the registration loop into an unregistered source throws, and
sources outside the registered prefix keep their routing lists. -/
theorem addStrategyLoop_throws_frame (strategy bad : String) (rest : List String) :
    ∀ (p : List String) (bot : Capybot),
      (∀ x ∈ p, x ∈ bot.dataSources) → bad ∉ bot.dataSources →
      (addStrategyLoop bot strategy (p ++ bad :: rest)).2 = true ∧
      ∀ k, k ∉ p →
        stratLookup k (addStrategyLoop bot strategy (p ++ bad :: rest)).1.strategies =
          stratLookup k bot.strategies := by
  intro p
  induction p with
  | nil =>
    intro bot _ hbad
    simp only [List.nil_append, addStrategyLoop]
    rw [if_neg hbad]
    exact ⟨rfl, fun k _ => rfl⟩
  | cons x p2 ih =>
    intro bot hp hbad
    have hx : x ∈ bot.dataSources := hp x (List.mem_cons_self x p2)
    simp only [List.cons_append, addStrategyLoop, List.append_eq]
    rw [if_pos hx]
    obtain ⟨ht, hframe⟩ := ih
      { bot with strategies := pushStrategy bot.strategies x strategy }
      (fun y hy => hp y (List.mem_cons_of_mem x hy)) hbad
    refine ⟨ht, fun k hk => ?_⟩
    rw [hframe k (fun hk2 => hk (List.mem_cons_of_mem x hk2))]
    show stratLookup k (pushStrategy bot.strategies x strategy) =
      stratLookup k bot.strategies
    rw [stratLookup_pushStrategy]
    exact if_neg (fun he => hk (by rw [he]; exact List.mem_cons_self x p2))

/-- Every source in the registered prefix before the throwing source ends
up with the strategy appended to its routing list. -/
theorem addStrategyLoop_pushes (strategy bad : String) (rest : List String) :
    ∀ (p : List String) (bot : Capybot), p.Nodup →
      (∀ x ∈ p, x ∈ bot.dataSources) → bad ∉ bot.dataSources →
      ∀ ds ∈ p, ∀ l, stratLookup ds bot.strategies = some l →
        stratLookup ds (addStrategyLoop bot strategy (p ++ bad :: rest)).1.strategies =
          some (l ++ [strategy]) := by
  intro p
  induction p with
  | nil =>
    intro bot _ _ _ ds hds
    cases hds
  | cons x p2 ih =>
    intro bot hnd hp hbad ds hds l hl
    have hx : x ∈ bot.dataSources := hp x (List.mem_cons_self x p2)
    simp only [List.cons_append, addStrategyLoop, List.append_eq]
    rw [if_pos hx]
    rcases List.mem_cons.mp hds with he | hm
    · subst he
      have hx2 : stratLookup ds (pushStrategy bot.strategies ds strategy) =
          some (l ++ [strategy]) := by
        rw [stratLookup_pushStrategy, if_pos rfl, hl]
        rfl
      have hdsnot : ds ∉ p2 := (List.nodup_cons.mp hnd).1
      obtain ⟨_, hframe⟩ := addStrategyLoop_throws_frame strategy bad rest p2
        { bot with strategies := pushStrategy bot.strategies ds strategy }
        (fun y hy => hp y (List.mem_cons_of_mem ds hy)) hbad
      rw [hframe ds hdsnot]
      exact hx2
    · have hne : ds ≠ x := fun he =>
        (List.nodup_cons.mp hnd).1 (he ▸ hm)
      have hl2 : stratLookup ds (pushStrategy bot.strategies x strategy) = some l := by
        rw [stratLookup_pushStrategy, if_neg hne, hl]
      exact ih { bot with strategies := pushStrategy bot.strategies x strategy }
        (List.nodup_cons.mp hnd).2
        (fun y hy => hp y (List.mem_cons_of_mem x hy)) hbad ds hm l hl2

/-! ## Claims about the payment selector -/

/-- C1 counterexample.  As stated, the claim quantifies over every list of
owned coins and every target at most the total balance, which includes the
empty wallet with target 0: there the precondition holds, yet the selector
does not produce a payment coin at all — it crashes dereferencing
`necessaryCoins[0]` on an empty selection. -/
theorem c1_payment_selector_counterexample :
    0 ≤ sumBalances [] ∧
    prepareCoinForPaymentCommon assetNonSui [] 0 = .error .runtimeTypeError := by
  exact ⟨Nat.zero_le _, by decide⟩

/-- C1 (amended with a positive target).  For every positive target at
most the total owned balance, the selector produces a plan whose payment
coin's balance is exactly the target and whose split is funded; and when
no single coin covers the target, the selected coins are exactly the
shortest prefix of the coins sorted ascending by balance whose cumulative
sum first reaches the target, with the first selected coin as the merge
base (the remainder of the merged sum stays in that base after the
split). -/
theorem c1_payment_selector_minimal_prefix (asset : String)
    (ownedCoins : List CoinStruct) (quantity : Nat)
    (hq : 0 < quantity) (hsum : quantity ≤ sumBalances ownedCoins) :
    ∃ plan, prepareCoinForPaymentCommon asset ownedCoins quantity = .ok plan ∧
      planAmount plan = quantity ∧ planFunded plan = true ∧
      ((asset ≠ SUI_ADDRESS_LONG ∧ asset ≠ SUI_ADDRESS_SHORT) →
        (∀ c ∈ ownedCoins, c.balance < quantity) →
        ∃ k baseCoin otherCoins,
          plan = .mergeAndSplit baseCoin otherCoins quantity ∧
          baseCoin :: otherCoins = (sortCoins ownedCoins).take k ∧
          quantity ≤ sumBalances ((sortCoins ownedCoins).take k) ∧
          ∀ j < k, sumBalances ((sortCoins ownedCoins).take j) < quantity) := by
  by_cases hsui : asset = SUI_ADDRESS_LONG ∨ asset = SUI_ADDRESS_SHORT
  · refine ⟨.splitFromGas quantity, ?_, rfl, rfl, ?_⟩
    · rw [prepareCoinForPaymentCommon, if_pos hsui]
    · intro hns
      exfalso
      tauto
  · rcases hfe : ownedCoins.find? (fun c => quantity ≤ c.balance) with _ | c
    · obtain ⟨k, hk0, hklen, heq, hge, hmin⟩ :=
        collectLoop_minimal quantity (sortCoins ownedCoins) 0 hq
          (by rw [sumBalances_sortCoins]; omega)
      rcases htk : (sortCoins ownedCoins).take k with _ | ⟨baseCoin, otherCoins⟩
      · exfalso
        rw [htk] at hge
        simp [sumBalances] at hge
        omega
      · rw [htk] at heq
        refine ⟨.mergeAndSplit baseCoin otherCoins quantity, ?_, rfl, ?_, ?_⟩
        · rw [prepareCoinForPaymentCommon, if_neg hsui, hfe]
          simp only [heq]
          rw [if_neg (by rw [htk] at hge; omega)]
        · simp only [planFunded]
          rw [htk, sumBalances_cons] at hge
          simp only [decide_eq_true_eq]
          omega
        · intro _ _
          exact ⟨k, baseCoin, otherCoins, rfl, htk.symm, by omega,
            fun j hj => by have := hmin j hj; omega⟩
    · have hpc := List.find?_some hfe
      simp only [decide_eq_true_eq] at hpc
      refine ⟨.splitFromSingle c quantity, ?_, rfl, ?_, ?_⟩
      · rw [prepareCoinForPaymentCommon, if_neg hsui, hfe]
      · simp only [planFunded, decide_eq_true_eq]
        omega
      · intro _ hall
        exfalso
        have hmem := List.mem_of_find?_eq_some hfe
        have := hall c hmem
        omega

/-- C1 witness: wallet `[3, 4]`, target `5` — no single coin covers the
target, the sorted prefix `[3, 4]` is merged and `5` split from the
merged `7`. -/
theorem c1_payment_selector_witness :
    0 < 5 ∧ 5 ≤ sumBalances [coin3, coin4] ∧
    (∃ plan, prepareCoinForPaymentCommon assetNonSui [coin3, coin4] 5 = .ok plan ∧
      planAmount plan = 5 ∧ planFunded plan = true ∧
      ((assetNonSui ≠ SUI_ADDRESS_LONG ∧ assetNonSui ≠ SUI_ADDRESS_SHORT) →
        (∀ c ∈ [coin3, coin4], c.balance < 5) →
        ∃ k baseCoin otherCoins,
          plan = .mergeAndSplit baseCoin otherCoins 5 ∧
          baseCoin :: otherCoins = (sortCoins [coin3, coin4]).take k ∧
          5 ≤ sumBalances ((sortCoins [coin3, coin4]).take k) ∧
          ∀ j < k, sumBalances ((sortCoins [coin3, coin4]).take j) < 5)) :=
  ⟨by decide, by decide,
    c1_payment_selector_minimal_prefix assetNonSui [coin3, coin4] 5
      (by decide) (by decide)⟩

/-- C6: when the total owned balance is strictly below the target (for a
non-SUI asset, whose payments go through coin selection), the selector
throws the insufficient-balance error carrying the requested amount and
the total available balance. -/
theorem c6_insufficient_balance_error (asset : String)
    (ownedCoins : List CoinStruct) (quantity : Nat)
    (hA : asset ≠ SUI_ADDRESS_LONG) (hB : asset ≠ SUI_ADDRESS_SHORT)
    (h : sumBalances ownedCoins < quantity) :
    prepareCoinForPaymentCommon asset ownedCoins quantity =
      .error (.insufficientBalance quantity (sumBalances ownedCoins)) := by
  have hfind : ownedCoins.find? (fun c => quantity ≤ c.balance) = none := by
    rw [List.find?_eq_none]
    intro c hc
    have := balance_le_sumBalances hc
    simp
    omega
  have hloop := collectLoop_insufficient quantity (sortCoins ownedCoins) 0
    (by rw [sumBalances_sortCoins]; omega)
  rw [prepareCoinForPaymentCommon, if_neg (by tauto)]
  rw [hfind]
  simp only [hloop, sumBalances_sortCoins, Nat.zero_add]
  rw [if_pos h]

/-- C6 witness: Scenario D — wallet `[10, 10]`, target `50` fails with
`InsufficientBalance` carrying requested `50` and available `20`. -/
theorem c6_insufficient_balance_witness :
    assetNonSui ≠ SUI_ADDRESS_LONG ∧ assetNonSui ≠ SUI_ADDRESS_SHORT ∧
    sumBalances [coin10a, coin10b] < 50 ∧
    prepareCoinForPaymentCommon assetNonSui [coin10a, coin10b] 50 =
      .error (.insufficientBalance 50 (sumBalances [coin10a, coin10b])) :=
  ⟨by decide, by decide, by decide,
    c6_insufficient_balance_error assetNonSui [coin10a, coin10b] 50
      (by decide) (by decide) (by decide)⟩

/-- C8 counterexample.  On owned units `[30, 45, 80]` with target `70` the
selector does not merge `30` and `45`: the unit with balance `80` already
covers the target (contrary to the scenario's premise that no single unit
does), so the selector splits `70` from it directly. -/
theorem c8_scenario_c_counterexample :
    prepareCoinForPaymentCommon assetNonSui [coin30, coin45, coin80] 70 =
      .ok (.splitFromSingle coin80 70) ∧
    prepareCoinForPaymentCommon assetNonSui [coin30, coin45, coin80] 70 ≠
      .ok (.mergeAndSplit coin30 [coin45] 70) := by
  decide

/-- C8 (amended).  For owned units `[30, 45, 80]` and target `70`, the
single unit with balance `80` covers the target, so the selector performs
no merge and splits exactly `70` from that unit (leaving `10` in it). -/
theorem c8_scenario_c_single_unit_split :
    prepareCoinForPaymentCommon assetNonSui [coin30, coin45, coin80] 70 =
      .ok (.splitFromSingle coin80 70) ∧
    planAmount (.splitFromSingle coin80 70) = 70 ∧
    planFunded (.splitFromSingle coin80 70) = true := by
  decide

/-! ## Claims about swap construction and the execution loop -/

/-- A RAMM pool whose pair is the two non-SUI fixture assets. -/
def rammPoolNonSui : RAMMPoolCoins :=
  { coinAType := assetNonSui, coinBType := assetOther }

/-- Swap parameters asking for 50 units in the A-to-B direction. -/
def paramsFifty : RAMMSuiParams := { a2b := true, amountIn := 50 }

/-- C7 counterexample.  With wallet `[10, 10]` and amount `50`, payment
selection throws the insufficient-balance error, yet
`createSwapTransaction` does not surface the failure to its caller: the
catch block absorbs it and the unchanged (here: empty) transaction block
is returned as the non-error result. -/
theorem c7_selector_failure_counterexample :
    prepareCoinForPaymentCommon assetNonSui [coin10a, coin10b] 50 =
      .error (.insufficientBalance 50 20) ∧
    createSwapTransaction rammPoolNonSui [coin10a, coin10b] [] paramsFifty =
      .ok [] := by
  decide

/-- C7 (amended).  An insufficient-balance failure during payment
selection is caught *inside* `createSwapTransaction` (and only logged):
the transaction block passed in is returned unchanged, with no swap
appended.  The order is still abandoned — an empty transaction block is
never submitted by `executeTransactionBlock` — and the loop continues,
but the failure is absorbed in swap construction rather than surfaced to
the Execution Loop. -/
theorem c7_selector_failure_absorbed (pool : RAMMPoolCoins)
    (ownedCoins : List CoinStruct) (transactionBlock : List TxCommand)
    (params : RAMMSuiParams) (e : SelectorError)
    (ha : params.amountIn ≠ 0)
    (he : prepareCoinForPaymentCommon
      (if params.a2b then pool.coinAType else pool.coinBType)
      ownedCoins params.amountIn = .error e) :
    createSwapTransaction pool ownedCoins transactionBlock params =
      .ok transactionBlock ∧
    executeSubmits [] = false := by
  constructor
  · simp only [createSwapTransaction]
    rw [if_neg ha, he]
  · rfl

/-- C7 witness: the amended behaviour at the concrete insufficient-balance
input. -/
theorem c7_selector_failure_witness :
    paramsFifty.amountIn ≠ 0 ∧
    prepareCoinForPaymentCommon
      (if paramsFifty.a2b then rammPoolNonSui.coinAType else rammPoolNonSui.coinBType)
      [coin10a, coin10b] paramsFifty.amountIn =
        .error (.insufficientBalance 50 20) ∧
    (createSwapTransaction rammPoolNonSui [coin10a, coin10b] [] paramsFifty =
      .ok [] ∧ executeSubmits [] = false) :=
  ⟨by decide, by decide,
    c7_selector_failure_absorbed rammPoolNonSui [coin10a, coin10b] [] paramsFifty
      (.insufficientBalance 50 20) (by decide) (by decide)⟩

/-! ## Claims about the arbitrage strategy -/

/-- C2: `evaluate` never emits a strict, non-empty subset of a chain's
hops — its output is empty, or one order per hop walking the whole chain
forward with the declared directions, or one order per hop walking the
whole chain backwards with inverted directions. -/
theorem c2_chain_closure (s : Arbitrage) (data : DataPoint) :
    (evaluate s data).1 = [] ∨
    (evaluate s data).1.map (fun o => (o.poolUuid, o.a2b)) =
      s.poolChain.map (fun p => (p.poolUuid, p.a2b)) ∨
    (evaluate s data).1.map (fun o => (o.poolUuid, o.a2b)) =
      s.poolChain.reverse.map (fun p => (p.poolUuid, !p.a2b)) := by
  simp only [evaluate]
  split
  · exact Or.inl rfl
  · split
    · exact Or.inl rfl
    · split
      · refine Or.inr (Or.inl ?_)
        rw [List.map_map]
        exact List.map_congr_left (fun p _ => rfl)
      · split
        · refine Or.inr (Or.inr ?_)
          rw [List.map_map]
          exact List.map_congr_left (fun p _ => rfl)
        · exact Or.inl rfl

/-- A one-pool chain whose strategy then observes a zero price. -/
def zeroRateArb : Arbitrage :=
  { lowerLimit := .num 1.0005, poolChain := [poolXY], latestRate := [],
    latestFee := [], defaultAmounts := [(coinX.type, .num 1), (coinY.type, .num 1)] }

/-- A price observation of `0` (with zero fee) for the pool above. -/
def zeroRateData : DataPoint :=
  { type := .Price, source_uri := poolXY.poolUuid, price := .num 0, fee := .num 0 }

/-- C3, evaluated at the failing input.  A cached rate equal to `0` does
*not* short-circuit to an empty result: the rate-presence check
`rate == undefined` lets `0` through, `1 / 0` makes the reverse product
positive infinity, which exceeds any finite lower limit, and the strategy
emits a reverse order whose estimated price is positive infinity —
contradicting both halves of the claim. -/
theorem c3_zero_rate_emits_infinite_price :
    (evaluate zeroRateArb zeroRateData).1 =
      [{ poolUuid := poolXY.poolUuid, assetIn := coinY.type,
         amountIn := .num 1000, estimatedPrice := some (.inf true), a2b := false }] ∧
    (evaluate zeroRateArb zeroRateData).1 ≠ [] := by
  constructor
  · norm_num [evaluate, updateCaches, chainProducts, getLatestRate, recLookup,
      undefToNan, jmul, jsub, jdiv, jgt, reverseOrder, forwardOrder,
      zeroRateArb, zeroRateData, poolXY, coinX, coinY]
  · norm_num [evaluate, updateCaches, chainProducts, getLatestRate, recLookup,
      undefToNan, jmul, jsub, jdiv, jgt, reverseOrder, forwardOrder,
      zeroRateArb, zeroRateData, poolXY, coinX, coinY]

/-- C4: whenever the forward product strictly exceeds the lower limit,
the emitted orders' input amounts are exactly the configured per-asset
default amounts scaled by the input asset's decimal places — a formula
that does not mention any cached rate, so each hop's amount is independent
of the other hops' rates. -/
theorem c4_forward_amounts_from_defaults (s : Arbitrage) (data : DataPoint)
    (arb rev : JSNum)
    (h1 : data.type = DataType.Price)
    (h2 : data.source_uri ∈ s.poolChain.map (fun p => p.poolUuid))
    (h3 : chainProducts (updateCaches s data) s.poolChain (.num 1) (.num 1) =
      some (arb, rev))
    (h4 : jgt arb s.lowerLimit = true) :
    (evaluate s data).1.map (fun o => o.amountIn) =
      s.poolChain.map (fun p =>
        jmul
          (undefToNan (recLookup (if p.a2b then p.coinA.type else p.coinB.type)
            s.defaultAmounts))
          (.num (10 ^ (if p.a2b then p.coinA.decimals else p.coinB.decimals)))) := by
  simp only [evaluate]
  rw [if_neg (by simp [h1, h2])]
  have h3e : chainProducts (updateCaches s data) (updateCaches s data).poolChain
      (.num 1) (.num 1) = some (arb, rev) := h3
  rw [h3e]
  dsimp only
  rw [if_pos (show jgt arb (updateCaches s data).lowerLimit = true from h4)]
  rw [List.map_map]
  exact List.map_congr_left (fun p _ => rfl)

/-- A one-pool chain and an observation that makes its forward product
`0.997 * 2 = 1.994`, above the `1.0005` limit. -/
def forwardArb : Arbitrage :=
  { lowerLimit := .num 1.0005, poolChain := [poolXY], latestRate := [],
    latestFee := [], defaultAmounts := [(coinX.type, .num 3), (coinY.type, .num 2)] }

/-- The observation driving `forwardArb` into its forward branch. -/
def forwardData : DataPoint :=
  { type := .Price, source_uri := poolXY.poolUuid, price := .num 2, fee := .num 0.003 }

/-- C4 witness: at the concrete forward-firing input, the emitted amount
is the default amount `3` of the input asset scaled by its `6` decimal
places. -/
theorem c4_forward_amounts_witness :
    forwardData.type = DataType.Price ∧
    forwardData.source_uri ∈ forwardArb.poolChain.map (fun p => p.poolUuid) ∧
    chainProducts (updateCaches forwardArb forwardData) forwardArb.poolChain
      (.num 1) (.num 1) = some (.num 1.994, .num 0.4985) ∧
    jgt (.num 1.994) forwardArb.lowerLimit = true ∧
    (evaluate forwardArb forwardData).1.map (fun o => o.amountIn) =
      forwardArb.poolChain.map (fun p =>
        jmul
          (undefToNan (recLookup (if p.a2b then p.coinA.type else p.coinB.type)
            forwardArb.defaultAmounts))
          (.num (10 ^ (if p.a2b then p.coinA.decimals else p.coinB.decimals)))) :=
  ⟨rfl, by decide,
    by norm_num [chainProducts, updateCaches, getLatestRate, recLookup, undefToNan,
      jmul, jsub, jdiv, forwardArb, forwardData, poolXY, coinX, coinY],
    by norm_num [jgt, forwardArb],
    c4_forward_amounts_from_defaults forwardArb forwardData (.num 1.994) (.num 0.4985)
      rfl (by decide)
      (by norm_num [chainProducts, updateCaches, getLatestRate, recLookup, undefToNan,
        jmul, jsub, jdiv, forwardArb, forwardData, poolXY, coinX, coinY])
      (by norm_num [jgt, forwardArb])⟩

/-- A two-pool chain whose second pool already has a cached rate, set up
so that the next observation fires the reverse branch
(forward product `2 * 0.49 = 0.98`, reverse product `1 / 0.98 ≈ 1.0204`). -/
def reverseArb : Arbitrage :=
  { lowerLimit := .num 1.0005, poolChain := [poolXY, poolYX],
    latestRate := [(poolYX.poolUuid, .num 0.49)],
    latestFee := [(poolYX.poolUuid, .num 0)],
    defaultAmounts := [(coinX.type, .num 1), (coinY.type, .num 1)] }

/-- The observation driving `reverseArb` into its reverse branch. -/
def reverseData : DataPoint :=
  { type := .Price, source_uri := poolXY.poolUuid, price := .num 2, fee := .num 0 }

/-- C5, evaluated at the failing input.  When the reverse branch fires,
`evaluate` iterates over `this.poolChain.reverse()`, and JavaScript's
`Array.prototype.reverse` reverses the array *in place*: after the call
the strategy's configured pool chain is permuted — it is the reversed
chain, not the chain the strategy was constructed with. -/
theorem c5_reverse_branch_reverses_pool_chain :
    (evaluate reverseArb reverseData).2.poolChain = [poolYX, poolXY] ∧
    (evaluate reverseArb reverseData).2.poolChain ≠ reverseArb.poolChain := by
  constructor
  · simp +decide [evaluate, updateCaches, chainProducts, getLatestRate, recLookup,
      undefToNan, jmul, jsub, jdiv, jgt, reverseOrder, forwardOrder,
      reverseArb, reverseData, poolXY, poolYX, coinX, coinY]
    norm_num
  · simp +decide [evaluate, updateCaches, chainProducts, getLatestRate, recLookup,
      undefToNan, jmul, jsub, jdiv, jgt, reverseOrder, forwardOrder,
      reverseArb, reverseData, poolXY, poolYX, coinX, coinY]
    norm_num

/-! ## Claims about the execution loop -/

/-- C9: starting from the base delay (the loop sets
`const baseDelay = delay` from its initial delay argument), after any
sequence of submission outcomes the delay observed by every
inter-iteration sleep stays within the closed interval from the base
delay to the maximum delay, provided the base delay is at most the
maximum. -/
theorem c9_delay_within_bounds (baseDelay maxDelay : ℚ)
    (h : baseDelay ≤ maxDelay) (outcomes : List Bool) :
    baseDelay ≤ delayAfter baseDelay maxDelay baseDelay outcomes ∧
    delayAfter baseDelay maxDelay baseDelay outcomes ≤ maxDelay := by
  suffices hgen : ∀ (l : List Bool) (d : ℚ), baseDelay ≤ d → d ≤ maxDelay →
      baseDelay ≤ delayAfter baseDelay maxDelay d l ∧
      delayAfter baseDelay maxDelay d l ≤ maxDelay from
    hgen outcomes baseDelay le_rfl h
  intro l
  induction l with
  | nil => intro d h1 h2; exact ⟨h1, h2⟩
  | cons b bs ih =>
    intro d h1 h2
    rw [delayAfter, List.foldl_cons]
    obtain ⟨hb1, hb2⟩ := delayStep_bounds baseDelay maxDelay d b h
    exact ih (delayStep baseDelay maxDelay d b) hb1 hb2

/-- C9 witness: base delay 1000, maximum 60000, three failures then a
success — the clamped delay stays within the interval. -/
theorem c9_delay_within_bounds_witness :
    (1000 : ℚ) ≤ 60000 ∧
    ((1000 : ℚ) ≤ delayAfter 1000 60000 1000 [true, true, true, false] ∧
      delayAfter 1000 60000 1000 [true, true, true, false] ≤ 60000) :=
  ⟨by norm_num,
    c9_delay_within_bounds 1000 60000 (by norm_num) [true, true, true, false]⟩

/-- C10: when a strategy's subscription list is a registered,
duplicate-free prefix followed by an unregistered source, `addStrategy`
throws — and it is not atomic: every source of the registered prefix
keeps the strategy appended to its routing list, so the strategy remains
partially registered after the throw. -/
theorem c10_partial_registration (bot : Capybot) (strategy : String)
    (p : List String) (bad : String) (rest : List String)
    (hnd : p.Nodup)
    (hp : ∀ x ∈ p, x ∈ bot.dataSources)
    (hbad : bad ∉ bot.dataSources) :
    (addStrategy bot strategy (p ++ bad :: rest)).2 = true ∧
    ∀ ds ∈ p, ∀ l, stratLookup ds bot.strategies = some l →
      stratLookup ds (addStrategy bot strategy (p ++ bad :: rest)).1.strategies =
        some (l ++ [strategy]) := by
  refine ⟨(addStrategyLoop_throws_frame strategy bad rest p bot hp hbad).1, ?_⟩
  intro ds hds l hl
  exact addStrategyLoop_pushes strategy bad rest p bot hnd hp hbad ds hds l hl

/-- A registered source identity. -/
def srcA : String := "source-a"

/-- A second registered source identity. -/
def srcB : String := "source-b"

/-- A source identity never registered with the bot. -/
def srcMissing : String := "source-missing"

/-- The identity of the strategy being registered. -/
def stratNew : String := "strategy-1"

/-- A bot with two registered sources and empty routing lists. -/
def botTwoSources : Capybot :=
  { dataSources := [srcA, srcB], strategies := [(srcA, []), (srcB, [])] }

/-- C10 witness: registering a strategy subscribed to `[srcA, srcMissing]`
throws, yet leaves the strategy pushed onto the routing list of `srcA`. -/
theorem c10_partial_registration_witness :
    ([srcA] : List String).Nodup ∧
    (∀ x ∈ [srcA], x ∈ botTwoSources.dataSources) ∧
    srcMissing ∉ botTwoSources.dataSources ∧
    ((addStrategy botTwoSources stratNew ([srcA] ++ srcMissing :: [])).2 = true ∧
      ∀ ds ∈ [srcA], ∀ l, stratLookup ds botTwoSources.strategies = some l →
        stratLookup ds
          (addStrategy botTwoSources stratNew ([srcA] ++ srcMissing :: [])).1.strategies =
            some (l ++ [stratNew])) := by
  have h := c10_partial_registration botTwoSources stratNew [srcA] srcMissing []
    (by decide) (by decide) (by decide)
  exact ⟨by decide, by decide, by decide, h⟩
